import Mathlib

/-
Verification development for the WatermarkRemover pipeline
(src/watermark_remover.py).

Shallow embedding conventions:
* Pixel values are rationals (the code works in numpy float arrays); a
  colour pixel is a BGR triple of rationals.
* External library calls (cv2 resize/cvtColor/GaussianBlur, imagehash
  phash, the lama inpainting model) are abstracted as function
  parameters; everything the repository itself computes is embedded.
* Python dicts are modelled as insertion-ordered association lists;
  `FrameCache.cache` and `FrameCache.access_count` always hold exactly
  the same keys in the same order (both are only ever modified together
  in `put`, and `get` only rewrites a stored counter value), so the two
  dicts are modelled as one list of (signature, buffer, count) triples.
* Python exceptions are modelled with `Option`/`Except`: a `none` or
  `.error` result marks the raising path.
-/

/-- A colour pixel: a BGR triple, as rationals. -/
abbrev Pix : Type := ℚ × ℚ × ℚ

/-- A full video frame, as a pixel grid addressed by (row, column). -/
abbrev Frame : Type := Nat → Nat → Pix

/-- A rectangular region cut out of a frame: its height, width and pixels. -/
structure RoiImage where
  h : Nat
  w : Nat
  px : Nat → Nat → Pix

/-- Bit-population count, via a structurally decreasing fuel argument
(the fuel `n` always suffices for the number `n` itself since n < 2^n). -/
def popCountAux : Nat → Nat → Nat
  | 0, _ => 0
  | _, 0 => 0
  | fuel + 1, n + 1 => (n + 1) % 2 + popCountAux fuel ((n + 1) / 2)

/-- Number of set bits of a natural number. -/
def popCount (n : Nat) : Nat := popCountAux n n

/-- Hamming distance between two perceptual signatures encoded as the
natural numbers given by their bit patterns.  This is what
`imagehash.ImageHash.__sub__` computes for the `frame_hash - cached_hash`
expression in `FrameCache.get`. -/
def hashDist (a b : Nat) : Nat := popCount (Nat.xor a b)

/-- `FrameCache` state.  `entries` holds, in dict insertion order, the
signature key, the cached processed buffer (`self.cache[key]`) and the
access counter (`self.access_count[key]`). -/
structure FrameCache (Buf : Type) where
  entries : List (Nat × Buf × Nat)
  cache_size : Nat
  similarity_threshold : Nat

namespace FrameCache

variable {Roi Buf : Type}

/-- A fresh cache, as built by `FrameCache.__init__`. -/
def empty (cache_size similarity_threshold : Nat) : FrameCache Buf :=
  ⟨[], cache_size, similarity_threshold⟩

/-- The stored signature keys, in iteration order. -/
def keys (l : List (Nat × Buf × Nat)) : List Nat := l.map (fun e => e.1)

/-- The stored (signature, access-count) pairs, modelling `self.access_count`. -/
def counts (l : List (Nat × Buf × Nat)) : List (Nat × Nat) :=
  l.map (fun e => (e.1, e.2.2))

/-- `del d[k]`: drop the (unique) entry with key `k`. -/
def eraseKey (k : Nat) : List (Nat × Buf × Nat) → List (Nat × Buf × Nat)
  | [] => []
  | e :: rest => if e.1 = k then rest else e :: eraseKey k rest

/-- `d[k] = v` on both dicts at once: overwrite in place when the key is
present (Python dicts keep the original position), append otherwise. -/
def setKey (k : Nat) (b : Buf) (f : Nat) :
    List (Nat × Buf × Nat) → List (Nat × Buf × Nat)
  | [] => [(k, b, f)]
  | e :: rest => if e.1 = k then (k, b, f) :: rest else e :: setKey k b f rest

/-- `self.access_count[k] += 1`. -/
def bumpCount (k : Nat) : List (Nat × Buf × Nat) → List (Nat × Buf × Nat)
  | [] => []
  | (k', b, f) :: rest =>
    if k' = k then (k', b, f + 1) :: rest else (k', b, f) :: bumpCount k rest

/-- Stored buffer and counter for key `k` (`self.cache[k]`, `self.access_count[k]`). -/
def lookupPair (k : Nat) : List (Nat × Buf × Nat) → Option (Buf × Nat)
  | [] => none
  | (k', b, f) :: rest => if k' = k then some (b, f) else lookupPair k rest

/-- Stored buffer for key `k`. -/
def valueOf (k : Nat) : List (Nat × Buf × Nat) → Option Buf
  | [] => none
  | (k', b, _) :: rest => if k' = k then some b else valueOf k rest

/-- The running minimum of `min(self.access_count, key=self.access_count.get)`:
Python's `min` keeps the first minimum, replacing the current best only on a
strictly smaller value. -/
def leastUsedFrom (bk bf : Nat) : List (Nat × Buf × Nat) → Nat
  | [] => bk
  | (k, _, f) :: rest =>
    if f < bf then leastUsedFrom k f rest else leastUsedFrom bk bf rest

/-- `min(self.access_count, key=self.access_count.get)`; `none` models the
`ValueError` Python's `min` raises on an empty dict. -/
def leastUsed : List (Nat × Buf × Nat) → Option Nat
  | [] => none
  | (k, _, f) :: rest => some (leastUsedFrom k f rest)

/-- The scan loop of `FrameCache.get`: running (best key, distance) pair,
starting from `min_distance = inf` so the first entry always becomes the
initial best; later entries replace it only on strictly smaller distance. -/
def bestMatchFrom (dist : Nat → Nat) (bk bd : Nat) :
    List (Nat × Buf × Nat) → Nat × Nat
  | [] => (bk, bd)
  | (k, _, _) :: rest =>
    if dist k < bd then bestMatchFrom dist k (dist k) rest
    else bestMatchFrom dist bk bd rest

/-- The full scan of `FrameCache.get`: the key of minimum Hamming distance
to the probe, together with that distance; `none` iff the cache is empty. -/
def bestMatch (dist : Nat → Nat) : List (Nat × Buf × Nat) → Option (Nat × Nat)
  | [] => none
  | (k, _, _) :: rest => some (bestMatchFrom dist k (dist k) rest)

/-- `FrameCache.get`.  `hash` abstracts `compute_hash` (cv2 resize +
imagehash.phash, both external).  Returns the cache hit (or `none` on a
miss) together with the updated cache state. -/
def get (hash : Roi → Nat) (c : FrameCache Buf) (roi : Roi) :
    Option Buf × FrameCache Buf :=
  let frame_hash := hash roi
  match bestMatch (fun k => hashDist frame_hash k) c.entries with
  | none => (none, c)
  | some (best_match, min_distance) =>
    if min_distance ≤ c.similarity_threshold then
      (valueOf best_match c.entries,
        { c with entries := bumpCount best_match c.entries })
    else (none, c)

/-- `FrameCache.put`.  When the cache already holds at least `cache_size`
entries it first evicts the least-used key; `none` models the `ValueError`
raised by `min` over an empty `access_count` (only possible when
`cache_size = 0`). -/
def put (hash : Roi → Nat) (c : FrameCache Buf) (roi : Roi)
    (processed_result : Buf) : Option (FrameCache Buf) :=
  let frame_hash := hash roi
  if c.cache_size ≤ c.entries.length then
    match leastUsed c.entries with
    | none => none
    | some least_used =>
      some { c with
        entries := setKey frame_hash processed_result 1
          (eraseKey least_used c.entries) }
  else
    some { c with entries := setKey frame_hash processed_result 1 c.entries }

end FrameCache

/-- One call against the cache, for stating whole-history invariants. -/
inductive CacheOp (Roi Buf : Type) where
  | get (roi : Roi)
  | put (roi : Roi) (buf : Buf)

/-- Run a sequence of cache calls; `none` as soon as a `put` raises. -/
def runOps {Roi Buf : Type} (hash : Roi → Nat) :
    List (CacheOp Roi Buf) → FrameCache Buf → Option (FrameCache Buf)
  | [], c => some c
  | CacheOp.get roi :: ops, c => runOps hash ops (FrameCache.get hash c roi).2
  | CacheOp.put roi b :: ops, c =>
    match FrameCache.put hash c roi b with
    | none => none
    | some c' => runOps hash ops c'

/-- `FrameSkipDetector` state. -/
structure FrameSkipDetector where
  keyframe_interval : Nat
  scene_change_threshold : ℚ
  prev_roi : Option RoiImage

namespace FrameSkipDetector

/-- Mean squared difference of the grayscale renderings of two regions
(the numpy expression `np.mean((gray1 - gray2) ** 2)`); `gray` abstracts
`cv2.cvtColor(·, cv2.COLOR_BGR2GRAY)`. -/
def mse (gray : Pix → ℚ) (r1 r2 : RoiImage) : ℚ :=
  (((List.range r1.h).map (fun y =>
      ((List.range r1.w).map (fun x =>
        (gray (r1.px y x) - gray (r2.px y x)) ^ 2)).sum)).sum)
    / ((r1.h * r1.w : Nat) : ℚ)

/-- `FrameSkipDetector.calculate_frame_difference`: `⊤` is the
`float('inf')` sentinel returned when either region is `None`. -/
def calculate_frame_difference (gray : Pix → ℚ)
    (roi1 roi2 : Option RoiImage) : WithTop ℚ :=
  match roi1, roi2 with
  | some r1, some r2 => ((mse gray r1 r2 : ℚ) : WithTop ℚ)
  | _, _ => ⊤

/-- `FrameSkipDetector.should_process_frame`; `none` models the
`ZeroDivisionError` of `frame_index % 0` when the interval is zero. -/
def should_process_frame (gray : Pix → ℚ) (d : FrameSkipDetector)
    (frame_index : Nat) (roi : RoiImage) : Option Bool :=
  if d.keyframe_interval = 0 then none
  else if frame_index % d.keyframe_interval = 0 then some true
  else
    match d.prev_roi with
    | some prev =>
      if (d.scene_change_threshold : WithTop ℚ) <
          calculate_frame_difference gray (some roi) (some prev)
      then some true else some false
    | none => some false

/-- `FrameSkipDetector.update_prev_roi`. -/
def update_prev_roi (d : FrameSkipDetector) (roi : Option RoiImage) :
    FrameSkipDetector :=
  match roi with
  | some r => { d with prev_roi := some r }
  | none => d

end FrameSkipDetector

/-- Error kind raised by `WatermarkDetector.get_roi_coordinates`
(`ValueError: No watermark region found in mask`). -/
inductive DetectError where
  | no_watermark_region

namespace WatermarkDetector

/-- Per-pixel vote count across the per-frame binary masks
(`sum((mask == 255).astype(np.uint8) for mask in masks)`). -/
def vote_count (masks : List (Nat → Nat → Nat)) (y x : Nat) : Nat :=
  (masks.map (fun m => if m y x = 255 then 1 else 0)).sum

/-- `np.where(final_mask >= self.min_frame_count, 255, 0)`. -/
def threshold_mask (masks : List (Nat → Nat → Nat)) (min_frame_count : Nat) :
    Nat → Nat → Nat :=
  fun y x => if min_frame_count ≤ vote_count masks y x then 255 else 0

/-- One iteration of `cv2.dilate` with an all-ones `k × k` kernel anchored
at its centre `k / 2`, on an `h × w` grid: the maximum of the input over
the kernel window, out-of-bounds neighbours contributing nothing. -/
def dilate (h w k : Nat) (g : Nat → Nat → Nat) : Nat → Nat → Nat :=
  fun y x =>
    ((List.range (k * k)).map (fun t =>
      if k / 2 ≤ y + t / k ∧ y + t / k - k / 2 < h ∧
         k / 2 ≤ x + t % k ∧ x + t % k - k / 2 < w
      then g (y + t / k - k / 2) (x + t % k - k / 2) else 0)).foldr max 0

/-- `WatermarkDetector.generate_mask`, from the per-frame binarized masks
onward (frame sampling and Otsu binarization call external cv2/moviepy
code; the sampled binary masks are taken as input): per-pixel voting,
thresholding at `min_frame_count`, then two dilation iterations.  Note
the code always returns the resulting grid; it has no raising path. -/
def generate_mask (h w : Nat) (masks : List (Nat → Nat → Nat))
    (min_frame_count dilation_kernel_size : Nat) : Nat → Nat → Nat :=
  dilate h w dilation_kernel_size
    (dilate h w dilation_kernel_size (threshold_mask masks min_frame_count))

/-- `np.where(watermark_mask > 0)` restricted to the `h × w` grid, in
row-major order. -/
def foreground (h w : Nat) (mask : Nat → Nat → Nat) : List (Nat × Nat) :=
  (List.range h).foldr (fun y acc =>
    ((List.range w).filterMap (fun x =>
      if 0 < mask y x then some (y, x) else none)) ++ acc) []

/-- `WatermarkDetector.get_roi_coordinates`: bounding box of the
foreground pixels expanded by `margin` and clamped to the grid;
raises (`.error`) when the mask has no foreground pixel. -/
def get_roi_coordinates (h w : Nat) (watermark_mask : Nat → Nat → Nat)
    (margin : Int) : Except DetectError (Int × Int × Int × Int) :=
  match foreground h w watermark_mask with
  | [] => Except.error DetectError.no_watermark_region
  | p :: rest =>
    let ys : List Int := rest.map (fun q => (q.1 : Int))
    let xs : List Int := rest.map (fun q => (q.2 : Int))
    let y_min : Int := max 0 (ys.foldl min (p.1 : Int) - margin)
    let y_max : Int := min (h : Int) (ys.foldl max (p.1 : Int) + margin)
    let x_min : Int := max 0 (xs.foldl min (p.2 : Int) - margin)
    let x_max : Int := min (w : Int) (xs.foldl max (p.2 : Int) + margin)
    Except.ok (y_min, y_max, x_min, x_max)

end WatermarkDetector

/-- The fixed collaborators of one `WatermarkProcessor`: the abstracted
external functions and the constructor arguments that never change while
a video is processed.  `hash` is `FrameCache.compute_hash`, `gray` is the
BGR→grayscale conversion used by the skip detector, `inpaint` is
`lama_inpaint` followed by the BGR→RGB conversion, and `blend_mask` is
`cv2.GaussianBlur(roi_mask.astype(np.float32), (21, 21), 0) / 255.0`
(all external library computations). -/
structure PCtx where
  hash : RoiImage → Nat
  gray : Pix → ℚ
  inpaint : RoiImage → RoiImage
  blend_mask : Nat → Nat → ℚ
  roi_coords : Nat × Nat × Nat × Nat

/-- The mutable state a `WatermarkProcessor` threads across the frames of
one video. -/
structure PState where
  frame_cache : FrameCache RoiImage
  skip_detector : FrameSkipDetector
  prev_processed_roi : Option RoiImage

/-- The raising paths of `WatermarkProcessor.process_frame`:
`zero_keyframe_interval` is the `ZeroDivisionError` of `% 0`;
`evict_from_empty` is the `ValueError` of evicting from an empty cache;
`skip_without_snapshot` is the `TypeError` that arises when the skip
branch is taken with `prev_processed_roi` still `None` and `None` flows
into the blending arithmetic. -/
inductive PErr where
  | zero_keyframe_interval
  | evict_from_empty
  | skip_without_snapshot

namespace WatermarkProcessor

/-- `WatermarkProcessor.extract_roi`. -/
def extract_roi (roi_coords : Nat × Nat × Nat × Nat) (frame_bgr : Frame) :
    RoiImage :=
  ⟨roi_coords.2.1 - roi_coords.1, roi_coords.2.2.2 - roi_coords.2.2.1,
    fun i j => frame_bgr (roi_coords.1 + i) (roi_coords.2.2.1 + j)⟩

/-- The per-channel feathered blend
`blend_mask * processed + (1 - blend_mask) * raw`. -/
def blend_px (m : ℚ) (p r : Pix) : Pix :=
  (m * p.1 + (1 - m) * r.1,
   m * p.2.1 + (1 - m) * r.2.1,
   m * p.2.2 + (1 - m) * r.2.2)

/-- The compositing step of `process_frame`: copy the frame and overwrite
the `roi_coords` rectangle with the feathered blend of the regenerated
region and the raw region. -/
def composite (ctx : PCtx) (frame_bgr : Frame) (roi processed : RoiImage) :
    Frame :=
  fun y x =>
    if ctx.roi_coords.1 ≤ y ∧ y < ctx.roi_coords.2.1 ∧
       ctx.roi_coords.2.2.1 ≤ x ∧ x < ctx.roi_coords.2.2.2 then
      blend_px (ctx.blend_mask (y - ctx.roi_coords.1) (x - ctx.roi_coords.2.2.1))
        (processed.px (y - ctx.roi_coords.1) (x - ctx.roi_coords.2.2.1))
        (roi.px (y - ctx.roi_coords.1) (x - ctx.roi_coords.2.2.1))
    else frame_bgr y x

/-- `WatermarkProcessor.process_frame`. -/
def process_frame (ctx : PCtx) (st : PState) (frame_bgr : Frame)
    (frame_index : Nat) : Except PErr (Frame × PState) :=
  let roi := extract_roi ctx.roi_coords frame_bgr
  match FrameSkipDetector.should_process_frame ctx.gray st.skip_detector
      frame_index roi with
  | none => Except.error PErr.zero_keyframe_interval
  | some true =>
    match FrameCache.get ctx.hash st.frame_cache roi with
    | (some processed_roi, cache') =>
      Except.ok (composite ctx frame_bgr roi processed_roi,
        ⟨cache',
         FrameSkipDetector.update_prev_roi st.skip_detector (some roi),
         some processed_roi⟩)
    | (none, cache') =>
      let processed_roi := ctx.inpaint roi
      match FrameCache.put ctx.hash cache' roi processed_roi with
      | none => Except.error PErr.evict_from_empty
      | some cache'' =>
        Except.ok (composite ctx frame_bgr roi processed_roi,
          ⟨cache'',
           FrameSkipDetector.update_prev_roi st.skip_detector (some roi),
           some processed_roi⟩)
  | some false =>
    match st.prev_processed_roi with
    | none => Except.error PErr.skip_without_snapshot
    | some processed_roi =>
      Except.ok (composite ctx frame_bgr roi processed_roi, st)

/-- The state established by `WatermarkProcessor.__init__`:
`FrameCache(cache_size=100, similarity_threshold=3)`,
`FrameSkipDetector(keyframe_interval=5, scene_change_threshold=50.0)`,
no snapshot yet. -/
def initState : PState :=
  ⟨FrameCache.empty 100 3, ⟨5, 50, none⟩, none⟩

/-- The frame loop of `process_video`: frames are fed in order with a
counter starting at the given index (0 for a whole video). -/
def runFrames (ctx : PCtx) :
    PState → Nat → List Frame → Except PErr (List Frame × PState)
  | st, _, [] => Except.ok ([], st)
  | st, idx, f :: fs =>
    match process_frame ctx st f idx with
    | Except.error e => Except.error e
    | Except.ok (out, st') =>
      match runFrames ctx st' (idx + 1) fs with
      | Except.error e => Except.error e
      | Except.ok (outs, stFin) => Except.ok (out :: outs, stFin)

end WatermarkProcessor

/-! ### Helper lemmas -/

theorem popCountAux_zero (fuel : Nat) : popCountAux fuel 0 = 0 := by
  cases fuel <;> rfl

theorem hashDist_self (n : Nat) : hashDist n n = 0 := by
  show popCount (Nat.xor n n) = 0
  have hx : Nat.xor n n = 0 := Nat.xor_self n
  rw [hx]
  exact popCountAux_zero 0

namespace FrameCache

variable {Roi Buf : Type}

theorem setKey_length_le (k : Nat) (b : Buf) (f : Nat) :
    ∀ l : List (Nat × Buf × Nat), (setKey k b f l).length ≤ l.length + 1 := by
  intro l
  induction l with
  | nil => simp [setKey]
  | cons e rest ih =>
    by_cases h : e.1 = k
    · simp [setKey, h]
    · simp only [setKey, h, if_false, List.length_cons]
      omega

theorem setKey_length_of_mem (k : Nat) (b : Buf) (f : Nat) :
    ∀ l : List (Nat × Buf × Nat), k ∈ keys l → (setKey k b f l).length = l.length := by
  intro l
  induction l with
  | nil => intro h; simp [keys] at h
  | cons e rest ih =>
    intro hmem
    by_cases h : e.1 = k
    · simp [setKey, h]
    · have : k ∈ keys rest := by
        simp [keys] at hmem ⊢
        rcases hmem with h1 | h1
        · exact absurd h1.symm h
        · exact h1
      simp only [setKey, h, if_false, List.length_cons, ih this]

theorem eraseKey_length_of_mem (k : Nat) :
    ∀ l : List (Nat × Buf × Nat), k ∈ keys l → (eraseKey k l).length + 1 = l.length := by
  intro l
  induction l with
  | nil => intro h; simp [keys] at h
  | cons e rest ih =>
    intro hmem
    by_cases h : e.1 = k
    · simp [eraseKey, h]
    · have : k ∈ keys rest := by
        simp [keys] at hmem ⊢
        rcases hmem with h1 | h1
        · exact absurd h1.symm h
        · exact h1
      simp only [eraseKey, h, if_false, List.length_cons, ih this]

theorem lookupPair_setKey (k : Nat) (b : Buf) (f : Nat) :
    ∀ l : List (Nat × Buf × Nat), lookupPair k (setKey k b f l) = some (b, f) := by
  intro l
  induction l with
  | nil => simp [setKey, lookupPair]
  | cons e rest ih =>
    by_cases h : e.1 = k
    · simp [setKey, h, lookupPair]
    · simp [setKey, h, lookupPair, ih]

theorem bumpCount_length (k : Nat) :
    ∀ l : List (Nat × Buf × Nat), (bumpCount k l).length = l.length := by
  intro l
  induction l with
  | nil => rfl
  | cons e rest ih =>
    obtain ⟨k', b, f⟩ := e
    by_cases h : k' = k
    · simp [bumpCount, h]
    · simp [bumpCount, h, ih]

theorem leastUsedFrom_spec :
    ∀ (l : List (Nat × Buf × Nat)) (bk bf : Nat),
      ∃ f, ((leastUsedFrom bk bf l = bk ∧ f = bf) ∨
              (leastUsedFrom bk bf l, f) ∈ counts l) ∧
        f ≤ bf ∧ ∀ e ∈ l, f ≤ e.2.2 := by
  intro l
  induction l with
  | nil =>
    intro bk bf
    exact ⟨bf, Or.inl ⟨rfl, rfl⟩, le_refl _, by simp⟩
  | cons e rest ih =>
    intro bk bf
    obtain ⟨k0, b0, f0⟩ := e
    by_cases h : f0 < bf
    · obtain ⟨f, h1, h2, h3⟩ := ih k0 f0
      refine ⟨f, ?_, le_of_lt (lt_of_le_of_lt h2 h), ?_⟩
      · right
        simp only [leastUsedFrom, if_pos h, counts, List.map_cons, List.mem_cons]
        rcases h1 with ⟨he, hfe⟩ | hmem
        · left; rw [he, hfe]
        · right; simpa [counts] using hmem
      · intro e he
        rcases List.mem_cons.1 he with he' | he'
        · rw [he']; exact h2
        · exact h3 e he'
    · obtain ⟨f, h1, h2, h3⟩ := ih bk bf
      refine ⟨f, ?_, h2, ?_⟩
      · simp only [leastUsedFrom, if_neg h, counts, List.map_cons, List.mem_cons]
        rcases h1 with ⟨he, hfe⟩ | hmem
        · left; exact ⟨he, hfe⟩
        · right; right; simpa [counts] using hmem
      · intro e he
        rcases List.mem_cons.1 he with he' | he'
        · rw [he']; exact le_trans h2 (Nat.le_of_not_lt h)
        · exact h3 e he'

theorem leastUsed_spec {l : List (Nat × Buf × Nat)} {k : Nat} (hk : leastUsed l = some k) :
    ∃ f, (k, f) ∈ counts l ∧ ∀ e ∈ l, f ≤ e.2.2 := by
  cases l with
  | nil => simp [leastUsed] at hk
  | cons e rest =>
    obtain ⟨k0, b0, f0⟩ := e
    have hkk : k = leastUsedFrom k0 f0 rest := by
      simpa [leastUsed] using hk.symm
    obtain ⟨f, h1, h2, h3⟩ := leastUsedFrom_spec rest k0 f0
    refine ⟨f, ?_, ?_⟩
    · simp only [counts, List.map_cons, List.mem_cons]
      rcases h1 with ⟨he, hfe⟩ | hmem
      · left; rw [hkk, he, hfe]
      · right; rw [hkk]; simpa [counts] using hmem
    · intro e he
      rcases List.mem_cons.1 he with he' | he'
      · rw [he']; exact h2
      · exact h3 e he'

theorem counts_mem_keys {l : List (Nat × Buf × Nat)} {k f : Nat}
    (h : (k, f) ∈ counts l) : k ∈ keys l := by
  simp only [counts, List.mem_map, Prod.mk.injEq] at h
  obtain ⟨e, he, h1, _⟩ := h
  simp only [keys, List.mem_map]
  exact ⟨e, he, h1⟩

theorem leastUsed_mem_keys {l : List (Nat × Buf × Nat)} {k : Nat}
    (hk : leastUsed l = some k) : k ∈ keys l := by
  obtain ⟨f, hmem, _⟩ := leastUsed_spec hk
  exact counts_mem_keys hmem

theorem leastUsed_isSome {l : List (Nat × Buf × Nat)} (h : l ≠ []) :
    ∃ k, leastUsed l = some k := by
  cases l with
  | nil => exact absurd rfl h
  | cons e rest =>
    obtain ⟨k0, b0, f0⟩ := e
    exact ⟨leastUsedFrom k0 f0 rest, rfl⟩

theorem put_cases (hash : Roi → Nat) (c : FrameCache Buf) (roi : Roi) (buf : Buf)
    {c' : FrameCache Buf} (hput : put hash c roi buf = some c') :
    (∃ k, leastUsed c.entries = some k ∧ c.cache_size ≤ c.entries.length ∧
        c' = { c with entries := setKey (hash roi) buf 1 (eraseKey k c.entries) }) ∨
    (c.entries.length < c.cache_size ∧
        c' = { c with entries := setKey (hash roi) buf 1 c.entries }) := by
  unfold put at hput
  by_cases hfull : c.cache_size ≤ c.entries.length
  · rw [if_pos hfull] at hput
    cases hk : leastUsed c.entries with
    | none => rw [hk] at hput; simp at hput
    | some k =>
      rw [hk] at hput
      simp only [Option.some.injEq] at hput
      exact Or.inl ⟨k, rfl, hfull, hput.symm⟩
  · rw [if_neg hfull] at hput
    simp only [Option.some.injEq] at hput
    exact Or.inr ⟨Nat.lt_of_not_le hfull, hput.symm⟩

theorem put_length_le (hash : Roi → Nat) (c : FrameCache Buf) (roi : Roi) (buf : Buf)
    {c' : FrameCache Buf} (hlen : c.entries.length ≤ c.cache_size)
    (hput : put hash c roi buf = some c') : c'.entries.length ≤ c.cache_size := by
  rcases put_cases hash c roi buf hput with ⟨k, hk, _, hc⟩ | ⟨hlt, hc⟩
  · have hm : k ∈ keys c.entries := leastUsed_mem_keys hk
    have h1 := setKey_length_le (hash roi) buf 1 (eraseKey k c.entries)
    have h2 := eraseKey_length_of_mem k c.entries hm
    rw [hc]
    simp only []
    omega
  · have h1 := setKey_length_le (hash roi) buf 1 c.entries
    rw [hc]
    simp only []
    omega

theorem put_cache_size (hash : Roi → Nat) (c : FrameCache Buf) (roi : Roi) (buf : Buf)
    {c' : FrameCache Buf} (hput : put hash c roi buf = some c') :
    c'.cache_size = c.cache_size ∧ c'.similarity_threshold = c.similarity_threshold := by
  rcases put_cases hash c roi buf hput with ⟨k, _, _, hc⟩ | ⟨_, hc⟩ <;> rw [hc] <;>
    exact ⟨rfl, rfl⟩

theorem put_isSome (hash : Roi → Nat) (c : FrameCache Buf) (roi : Roi) (buf : Buf)
    (h : c.entries.length < c.cache_size ∨ c.entries ≠ []) :
    ∃ c', put hash c roi buf = some c' := by
  by_cases hfull : c.cache_size ≤ c.entries.length
  · have hne : c.entries ≠ [] := by
      rcases h with h | h
      · omega
      · exact h
    obtain ⟨k, hk⟩ := leastUsed_isSome hne
    refine ⟨{ c with entries := setKey (hash roi) buf 1 (eraseKey k c.entries) }, ?_⟩
    unfold put
    rw [if_pos hfull, hk]
  · refine ⟨{ c with entries := setKey (hash roi) buf 1 c.entries }, ?_⟩
    unfold put
    rw [if_neg hfull]

theorem get_snd_spec (hash : Roi → Nat) (c : FrameCache Buf) (roi : Roi) :
    ((get hash c roi).2).entries.length = c.entries.length ∧
    ((get hash c roi).2).cache_size = c.cache_size ∧
    ((get hash c roi).2).similarity_threshold = c.similarity_threshold := by
  unfold get
  cases hb : bestMatch (fun k => hashDist (hash roi) k) c.entries with
  | none => simp [hb]
  | some p =>
    obtain ⟨bm, md⟩ := p
    by_cases hth : md ≤ c.similarity_threshold
    · simp [hb, hth, bumpCount_length]
    · simp [hb, hth]

end FrameCache

theorem runOps_preserves {Roi Buf : Type} (hash : Roi → Nat) :
    ∀ (ops : List (CacheOp Roi Buf)) (c c' : FrameCache Buf),
      c.entries.length ≤ c.cache_size → runOps hash ops c = some c' →
      c'.entries.length ≤ c'.cache_size ∧ c'.cache_size = c.cache_size := by
  intro ops
  induction ops with
  | nil =>
    intro c c' h hrun
    simp only [runOps, Option.some.injEq] at hrun
    rw [← hrun]
    exact ⟨h, rfl⟩
  | cons op rest ih =>
    intro c c' h hrun
    cases op with
    | get roi =>
      simp only [runOps] at hrun
      have hg := FrameCache.get_snd_spec hash c roi
      have hrec := ih _ _ (by rw [hg.1, hg.2.1]; exact h) hrun
      exact ⟨hrec.1, by rw [hrec.2, hg.2.1]⟩
    | put roi b =>
      simp only [runOps] at hrun
      cases hp : FrameCache.put hash c roi b with
      | none => rw [hp] at hrun; simp at hrun
      | some c2 =>
        rw [hp] at hrun
        have hlen := FrameCache.put_length_le hash c roi b h hp
        have hcs := FrameCache.put_cache_size hash c roi b hp
        have hrec := ih c2 c' (by rw [hcs.1]; exact hlen) hrun
        exact ⟨hrec.1, by rw [hrec.2, hcs.1]⟩

/-! ### Claims about the perceptual frame cache -/

/-- C2: starting from an empty cache the entry count never exceeds the
capacity `C`, over any sequence of `get`/`put` calls; and — for `C ≥ 1` —
a `put` issued when the cache already holds at least `C` entries evicts
exactly the first entry of minimal access frequency (the key returned by
`min` over `access_count`, whose counter is ≤ every stored counter)
before writing the new entry.  The `C ≥ 1` bound is forced by the
counterexample below: with `C = 0` the eviction raises instead. -/
theorem C2_capacity_and_min_freq_eviction :
    (∀ (Roi Buf : Type) (hash : Roi → Nat) (C T : Nat)
        (ops : List (CacheOp Roi Buf)) (c' : FrameCache Buf),
        runOps hash ops (FrameCache.empty C T) = some c' →
        c'.entries.length ≤ C) ∧
    (∀ (Roi Buf : Type) (hash : Roi → Nat) (c : FrameCache Buf)
        (roi : Roi) (buf : Buf),
        1 ≤ c.cache_size → c.cache_size ≤ c.entries.length →
        ∃ k f, FrameCache.leastUsed c.entries = some k ∧
          (k, f) ∈ FrameCache.counts c.entries ∧
          (∀ e ∈ c.entries, f ≤ e.2.2) ∧
          FrameCache.put hash c roi buf =
            some { c with
              entries := FrameCache.setKey (hash roi) buf 1
                (FrameCache.eraseKey k c.entries) }) := by
  constructor
  · intro Roi Buf hash C T ops c' hrun
    have h0 : (FrameCache.empty C T : FrameCache Buf).entries.length ≤
        (FrameCache.empty C T : FrameCache Buf).cache_size := by
      simp [FrameCache.empty]
    have := runOps_preserves hash ops _ c' h0 hrun
    have hC : (FrameCache.empty C T : FrameCache Buf).cache_size = C := rfl
    rw [hC] at this
    rw [← this.2]
    exact this.1
  · intro Roi Buf hash c roi buf hsz hfull
    have hne : c.entries ≠ [] := by
      intro h
      rw [h] at hfull
      simp at hfull
      omega
    obtain ⟨k, hk⟩ := FrameCache.leastUsed_isSome hne
    obtain ⟨f, hmem, hmin⟩ := FrameCache.leastUsed_spec hk
    refine ⟨k, f, hk, hmem, hmin, ?_⟩
    unfold FrameCache.put
    rw [if_pos hfull, hk]

/-- C2 counterexample: with capacity `C = 0` the very first `put` is
already issued "at capacity" (the cache holds `0 ≥ C` entries), but it
evicts nothing and inserts nothing — Python's `min` over the empty
`access_count` dict raises `ValueError` (modelled by `none`), refuting
the claim that every such `put` evicts one minimal-frequency entry and
then inserts the new one. -/
theorem C2_counterexample_capacity_zero :
    FrameCache.put (fun n : Nat => n) (⟨[], 0, 5⟩ : FrameCache Nat) 7 42 = none := rfl

/-- C2 witness: the amended eviction clause applied to a concrete full
cache of capacity 1. -/
theorem C2_witness :
    ∃ k f, FrameCache.leastUsed (([(0, 10, 1)] : List (Nat × Nat × Nat))) = some k ∧
      (k, f) ∈ FrameCache.counts (([(0, 10, 1)] : List (Nat × Nat × Nat))) ∧
      (∀ e ∈ ([(0, 10, 1)] : List (Nat × Nat × Nat)), f ≤ e.2.2) ∧
      FrameCache.put (fun _ : Nat => 3) (⟨[(0, 10, 1)], 1, 5⟩ : FrameCache Nat) 0 99 =
        some ⟨FrameCache.setKey 3 99 1 (FrameCache.eraseKey k [(0, 10, 1)]), 1, 5⟩ :=
  C2_capacity_and_min_freq_eviction.2 Nat Nat (fun _ => 3)
    ⟨[(0, 10, 1)], 1, 5⟩ 0 99 (by decide) (by decide)

/-- C7: after `put(R, P)` on an otherwise empty cache, `get(R)` returns
`P`: the signature of `R` matches itself at Hamming distance 0, which is
within every (hence every positive) threshold.  The hypothesis is the
`put` call itself having happened (it succeeds exactly when the
configured capacity is at least 1). -/
theorem C7_roundtrip_after_put :
    ∀ (Roi Buf : Type) (hash : Roi → Nat) (R : Roi) (P : Buf) (C T : Nat)
      (c' : FrameCache Buf),
      FrameCache.put hash (FrameCache.empty C T) R P = some c' →
      (FrameCache.get hash c' R).1 = some P := by
  intro Roi Buf hash R P C T c' hput
  rcases FrameCache.put_cases hash _ R P hput with ⟨k, hk, _, hc⟩ | ⟨_, hc⟩
  · rw [show FrameCache.leastUsed (FrameCache.empty C T : FrameCache Buf).entries
        = none from rfl] at hk
    cases hk
  · have hc' : c' = ⟨[(hash R, P, 1)], C, T⟩ := by
      rw [hc]; rfl
    rw [hc']
    simp [FrameCache.get, FrameCache.bestMatch, FrameCache.bestMatchFrom,
      hashDist_self, FrameCache.valueOf]

/-- C7 witness: a concrete round trip through a capacity-1 cache. -/
theorem C7_witness :
    FrameCache.put (fun n : Nat => n) (FrameCache.empty 1 0 : FrameCache Nat) 0 42 =
      some ⟨[(0, 42, 1)], 1, 0⟩ ∧
    (FrameCache.get (fun n : Nat => n) (⟨[(0, 42, 1)], 1, 0⟩ : FrameCache Nat) 0).1 =
      some 42 :=
  ⟨rfl, C7_roundtrip_after_put Nat Nat (fun n => n) 0 42 1 0 ⟨[(0, 42, 1)], 1, 0⟩ rfl⟩

/-- C10: a `put` whose region hashes to a signature already stored
overwrites that entry in place (buffer replaced, counter reset to 1)
rather than adding a second entry, so the entry count never grows; and,
concretely, when such a `put` hits a full cache the minimum-frequency
entry is still evicted first, so the cache can end up strictly smaller
(second conjunct: a full capacity-2 cache shrinks to 1 entry). -/
theorem C10_put_existing_signature :
    (∀ (Roi Buf : Type) (hash : Roi → Nat) (c : FrameCache Buf)
        (roi : Roi) (buf : Buf),
        hash roi ∈ FrameCache.keys c.entries →
        ∃ c', FrameCache.put hash c roi buf = some c' ∧
          c'.entries.length ≤ c.entries.length ∧
          FrameCache.lookupPair (hash roi) c'.entries = some (buf, 1)) ∧
    FrameCache.put (fun n : Nat => n)
        (⟨[(0, 10, 1), (1, 20, 2)], 2, 3⟩ : FrameCache Nat) 1 99 =
      some ⟨[(1, 99, 1)], 2, 3⟩ := by
  constructor
  · intro Roi Buf hash c roi buf hmem
    have hne : c.entries ≠ [] := by
      intro h
      rw [h] at hmem
      simp [FrameCache.keys] at hmem
    obtain ⟨c', hput⟩ := FrameCache.put_isSome hash c roi buf (Or.inr hne)
    refine ⟨c', hput, ?_, ?_⟩
    · rcases FrameCache.put_cases hash c roi buf hput with ⟨k, hk, _, hc⟩ | ⟨_, hc⟩
      · have hm : k ∈ FrameCache.keys c.entries := FrameCache.leastUsed_mem_keys hk
        have h1 := FrameCache.setKey_length_le (hash roi) buf 1
          (FrameCache.eraseKey k c.entries)
        have h2 := FrameCache.eraseKey_length_of_mem k c.entries hm
        rw [hc]
        simp only []
        omega
      · have h1 := FrameCache.setKey_length_of_mem (hash roi) buf 1 c.entries hmem
        rw [hc]
        simp only []
        omega
    · rcases FrameCache.put_cases hash c roi buf hput with ⟨k, _, _, hc⟩ | ⟨_, hc⟩ <;>
        rw [hc] <;> exact FrameCache.lookupPair_setKey _ _ _ _
  · rfl

/-- C10 witness: overwriting an existing signature in a (not-full)
cache keeps the size and resets the entry to (new buffer, counter 1). -/
theorem C10_witness :
    ∃ c', FrameCache.put (fun n : Nat => n)
        (⟨[(5, 0, 1)], 3, 3⟩ : FrameCache Nat) 5 9 = some c' ∧
      c'.entries.length ≤ ([(5, 0, 1)] : List (Nat × Nat × Nat)).length ∧
      FrameCache.lookupPair 5 c'.entries = some (9, 1) :=
  C10_put_existing_signature.1 Nat Nat (fun n => n) ⟨[(5, 0, 1)], 3, 3⟩ 5 9 (by decide)

/-! ### Claims about the temporal skip detector -/

theorem FrameSkipDetector.should_keyframe (gray : Pix → ℚ) (d : FrameSkipDetector)
    (frame_index : Nat) (roi : RoiImage) (h0 : d.keyframe_interval ≠ 0)
    (hm : frame_index % d.keyframe_interval = 0) :
    FrameSkipDetector.should_process_frame gray d frame_index roi = some true := by
  unfold FrameSkipDetector.should_process_frame
  rw [if_neg h0, if_pos hm]

theorem FrameSkipDetector.should_isSome (gray : Pix → ℚ) (d : FrameSkipDetector)
    (frame_index : Nat) (roi : RoiImage) (h0 : d.keyframe_interval ≠ 0) :
    ∃ b, FrameSkipDetector.should_process_frame gray d frame_index roi = some b := by
  unfold FrameSkipDetector.should_process_frame
  rw [if_neg h0]
  by_cases hm : frame_index % d.keyframe_interval = 0
  · rw [if_pos hm]
    exact ⟨true, rfl⟩
  · rw [if_neg hm]
    cases d.prev_roi with
    | none => exact ⟨false, rfl⟩
    | some prev =>
      show ∃ b, (if (d.scene_change_threshold : WithTop ℚ) <
          FrameSkipDetector.calculate_frame_difference gray (some roi) (some prev)
        then some true else some false) = some b
      split
      · exact ⟨true, rfl⟩
      · exact ⟨false, rfl⟩

/-- C5: whenever the frame index is a multiple of the (nonzero) keyframe
interval, `should_process_frame` answers "must process", for every region
content, every stored reference and every scene-change threshold. -/
theorem C5_keyframe_must_process :
    ∀ (gray : Pix → ℚ) (d : FrameSkipDetector) (frame_index : Nat) (roi : RoiImage),
      d.keyframe_interval ≠ 0 → d.keyframe_interval ∣ frame_index →
      FrameSkipDetector.should_process_frame gray d frame_index roi = some true :=
  fun gray d frame_index roi h0 hdvd =>
    FrameSkipDetector.should_keyframe gray d frame_index roi h0
      (Nat.mod_eq_zero_of_dvd hdvd)

/-- C5 witness: interval 5, frame 10, detector with a threshold and no
reference: classified must-process. -/
theorem C5_witness :
    (5 : Nat) ≠ 0 ∧ (5 : Nat) ∣ 10 ∧
    FrameSkipDetector.should_process_frame (fun _ => 0) ⟨5, 50, none⟩ 10
      ⟨1, 1, fun _ _ => (0, 0, 0)⟩ = some true :=
  ⟨by decide, by decide,
    C5_keyframe_must_process (fun _ => 0) ⟨5, 50, none⟩ 10
      ⟨1, 1, fun _ _ => (0, 0, 0)⟩ (by decide) (by decide)⟩

/-- C4 counterexample: at frame index 1 (not a multiple of the interval 5)
with no previous reference region stored, `should_process_frame` returns
`some false` — the frame is classified skip, not must-process: the code
guards the difference computation behind `prev_roi is not None` and never
reaches it on this path, refuting the claim that the sentinel difference
forces reprocessing here. -/
theorem C4_counterexample_skip_without_reference :
    FrameSkipDetector.should_process_frame (fun _ => 0) ⟨5, 50, none⟩ 1
      ⟨1, 1, fun _ _ => (0, 0, 0)⟩ = some false := rfl

/-- C4 (amended): `calculate_frame_difference` does return the sentinel
maximal value `⊤` (`float('inf')`) instead of raising whenever either
region is missing, and that sentinel exceeds every finite threshold; but
`should_process_frame` never invokes it without a previous reference —
for a non-keyframe index with no reference it returns `some false`
(skip), it does not force reprocessing. -/
theorem C4_sentinel_difference_but_guarded_skip :
    (∀ (gray : Pix → ℚ) (roi2 : Option RoiImage),
        FrameSkipDetector.calculate_frame_difference gray none roi2 = ⊤ ∧
        ∀ roi1, FrameSkipDetector.calculate_frame_difference gray roi1 none = ⊤) ∧
    (∀ q : ℚ, (q : WithTop ℚ) < ⊤) ∧
    (∀ (gray : Pix → ℚ) (d : FrameSkipDetector) (frame_index : Nat) (roi : RoiImage),
        d.keyframe_interval ≠ 0 → ¬ d.keyframe_interval ∣ frame_index →
        d.prev_roi = none →
        FrameSkipDetector.should_process_frame gray d frame_index roi = some false) := by
  refine ⟨?_, ?_, ?_⟩
  · intro gray roi2
    constructor
    · cases roi2 <;> rfl
    · intro roi1
      cases roi1 <;> rfl
  · intro q
    exact WithTop.coe_lt_top q
  · intro gray d frame_index roi h0 hndvd hprev
    have hm : ¬ frame_index % d.keyframe_interval = 0 :=
      fun h => hndvd (Nat.dvd_of_mod_eq_zero h)
    unfold FrameSkipDetector.should_process_frame
    rw [if_neg h0, if_neg hm, hprev]

/-- C4 witness: the amended statement at interval 5, frame 1, no
reference. -/
theorem C4_witness :
    (5 : Nat) ≠ 0 ∧ ¬ (5 : Nat) ∣ 1 ∧
    FrameSkipDetector.should_process_frame (fun _ => 1) ⟨5, 50, none⟩ 1
      ⟨2, 2, fun _ _ => (1, 1, 1)⟩ = some false :=
  ⟨by decide, by decide,
    C4_sentinel_difference_but_guarded_skip.2.2 (fun _ => 1) ⟨5, 50, none⟩ 1
      ⟨2, 2, fun _ _ => (1, 1, 1)⟩ (by decide) (by decide) rfl⟩

/-! ### Claims about watermark localization -/

theorem foldr_max_of_all_zero :
    ∀ l : List Nat, (∀ a ∈ l, a = 0) → l.foldr max 0 = 0 := by
  intro l
  induction l with
  | nil => intro; rfl
  | cons a t ih =>
    intro hl
    simp only [List.foldr_cons]
    rw [hl a (List.mem_cons_self a t), ih (fun b hb => hl b (List.mem_cons_of_mem a hb))]
    exact max_self 0

theorem foldr_max_le_foldr_max :
    ∀ (l : List Nat) (f g : Nat → Nat), (∀ t ∈ l, f t ≤ g t) →
      (l.map f).foldr max 0 ≤ (l.map g).foldr max 0 := by
  intro l
  induction l with
  | nil => intro f g _; exact le_refl 0
  | cons a t ih =>
    intro f g hfg
    simp only [List.map_cons, List.foldr_cons]
    exact max_le_max (hfg a (List.mem_cons_self a t))
      (ih f g (fun b hb => hfg b (List.mem_cons_of_mem a hb)))

namespace WatermarkDetector

theorem dilate_mono (h w k : Nat) {g1 g2 : Nat → Nat → Nat}
    (hg : ∀ y x, g1 y x ≤ g2 y x) :
    ∀ y x, dilate h w k g1 y x ≤ dilate h w k g2 y x := by
  intro y x
  unfold dilate
  apply foldr_max_le_foldr_max
  intro t _
  by_cases hc : k / 2 ≤ y + t / k ∧ y + t / k - k / 2 < h ∧
      k / 2 ≤ x + t % k ∧ x + t % k - k / 2 < w
  · rw [if_pos hc, if_pos hc]
    exact hg _ _
  · rw [if_neg hc, if_neg hc]

theorem dilate_zero (h w k : Nat) {g : Nat → Nat → Nat}
    (hg : ∀ y x, g y x = 0) : ∀ y x, dilate h w k g y x = 0 := by
  intro y x
  unfold dilate
  apply foldr_max_of_all_zero
  intro a ha
  simp only [List.mem_map] at ha
  obtain ⟨t, _, hta⟩ := ha
  rw [← hta]
  by_cases hc : k / 2 ≤ y + t / k ∧ y + t / k - k / 2 < h ∧
      k / 2 ≤ x + t % k ∧ x + t % k - k / 2 < w
  · rw [if_pos hc]
    exact hg _ _
  · rw [if_neg hc]

theorem threshold_mask_anti (masks : List (Nat → Nat → Nat)) {t1 t2 : Nat}
    (hle : t1 ≤ t2) :
    ∀ y x, threshold_mask masks t2 y x ≤ threshold_mask masks t1 y x := by
  intro y x
  unfold threshold_mask
  by_cases h2 : t2 ≤ vote_count masks y x
  · rw [if_pos h2, if_pos (le_trans hle h2)]
  · rw [if_neg h2]
    exact Nat.zero_le _

theorem generate_mask_anti (h w : Nat) (masks : List (Nat → Nat → Nat))
    (k : Nat) {t1 t2 : Nat} (hle : t1 ≤ t2) :
    ∀ y x, generate_mask h w masks t2 k y x ≤ generate_mask h w masks t1 k y x := by
  unfold generate_mask
  exact dilate_mono h w k (dilate_mono h w k (threshold_mask_anti masks hle))

theorem foreground_eq_nil (h w : Nat) (mask : Nat → Nat → Nat)
    (hm : ∀ y x, y < h → x < w → mask y x = 0) : foreground h w mask = [] := by
  unfold foreground
  suffices hgen : ∀ l : List Nat, (∀ y ∈ l, y < h) →
      l.foldr (fun y acc =>
        ((List.range w).filterMap (fun x =>
          if 0 < mask y x then some (y, x) else none)) ++ acc) [] = [] by
    exact hgen (List.range h) (fun y hy => List.mem_range.1 hy)
  intro l
  induction l with
  | nil => intro; rfl
  | cons a t ih =>
    intro hl
    have hrow : (List.range w).filterMap
        (fun x => if 0 < mask a x then some (a, x) else none) = [] := by
      rw [List.filterMap_eq_nil_iff]
      intro x hx
      rw [hm a x (hl a (List.mem_cons_self a t)) (List.mem_range.1 hx)]
      simp
    simp only [List.foldr_cons, hrow,
      ih (fun y hy => hl y (List.mem_cons_of_mem a hy)), List.nil_append]

theorem get_roi_coordinates_of_zero (h w : Nat) (mask : Nat → Nat → Nat)
    (margin : Int) (hm : ∀ y x, y < h → x < w → mask y x = 0) :
    get_roi_coordinates h w mask margin =
      Except.error DetectError.no_watermark_region := by
  unfold get_roi_coordinates
  rw [foreground_eq_nil h w mask hm]

end WatermarkDetector

/-- C6: raising the vote threshold never grows the final mask, dilations
included: for `t1 ≤ t2`, every pixel foreground in the mask generated
with `min_frame_count = t2` is foreground in the mask generated with
`min_frame_count = t1`, for the same sampled masks and kernel. -/
theorem C6_vote_threshold_monotone :
    ∀ (h w : Nat) (masks : List (Nat → Nat → Nat)) (k t1 t2 y x : Nat),
      t1 ≤ t2 →
      WatermarkDetector.generate_mask h w masks t2 k y x ≠ 0 →
      WatermarkDetector.generate_mask h w masks t1 k y x ≠ 0 := by
  intro h w masks k t1 t2 y x hle hne
  have hmono := WatermarkDetector.generate_mask_anti h w masks k hle y x
  omega

/-- C6 witness: two identical all-255 samples, thresholds 1 ≤ 2, kernel
1: the pixel (0, 0) is foreground at threshold 2 and hence at 1. -/
theorem C6_witness :
    (1 : Nat) ≤ 2 ∧
    WatermarkDetector.generate_mask 1 1 [fun _ _ => 255, fun _ _ => 255] 2 1 0 0 ≠ 0 ∧
    WatermarkDetector.generate_mask 1 1 [fun _ _ => 255, fun _ _ => 255] 1 1 0 0 ≠ 0 :=
  ⟨by decide, by decide,
    C6_vote_threshold_monotone 1 1 [fun _ _ => 255, fun _ _ => 255] 1 1 2 0 0
      (by decide) (by decide)⟩

/-- C8: an entirely zero watermark mask makes `get_roi_coordinates` fail
with the no-watermark error, whatever the margin. -/
theorem C8_empty_mask_error :
    ∀ (h w : Nat) (watermark_mask : Nat → Nat → Nat) (margin : Int),
      (∀ y x, y < h → x < w → watermark_mask y x = 0) →
      WatermarkDetector.get_roi_coordinates h w watermark_mask margin =
        Except.error DetectError.no_watermark_region :=
  fun h w mask margin hm =>
    WatermarkDetector.get_roi_coordinates_of_zero h w mask margin hm

/-- C8 witness: the all-zero 2×2 mask with margin 50. -/
theorem C8_witness :
    WatermarkDetector.get_roi_coordinates 2 2 (fun _ _ => 0) 50 =
      Except.error DetectError.no_watermark_region :=
  C8_empty_mask_error 2 2 (fun _ _ => 0) 50 (fun _ _ _ _ => rfl)

/-- C3 counterexample: with one all-zero sampled mask and
`min_frame_count = 7` no pixel reaches the vote count, yet
`generate_mask` returns the all-zero mask (here checked pointwise on a
2×2 grid) — a mask is returned; `generate_mask` has no raising path, so
it does not fail with `NoWatermarkDetected`. -/
theorem C3_counterexample_returns_zero_mask :
    ((List.range 2).all fun y => (List.range 2).all fun x =>
      WatermarkDetector.generate_mask 2 2 [fun _ _ => 0] 7 3 y x == 0) = true := by
  decide

/-- C3 (amended): when no pixel's vote count reaches `min_frame_count`,
`generate_mask` returns the all-zero mask rather than failing; the
`NoWatermarkDetected` failure is only raised downstream, by
`get_roi_coordinates` applied to that all-zero mask. -/
theorem C3_no_votes_zero_mask_then_downstream_error :
    ∀ (h w : Nat) (masks : List (Nat → Nat → Nat))
      (min_frame_count k : Nat) (margin : Int),
      (∀ y x, WatermarkDetector.vote_count masks y x < min_frame_count) →
      (∀ y x, WatermarkDetector.generate_mask h w masks min_frame_count k y x = 0) ∧
      WatermarkDetector.get_roi_coordinates h w
          (WatermarkDetector.generate_mask h w masks min_frame_count k) margin =
        Except.error DetectError.no_watermark_region := by
  intro h w masks minc k margin hv
  have hth : ∀ y x, WatermarkDetector.threshold_mask masks minc y x = 0 := by
    intro y x
    unfold WatermarkDetector.threshold_mask
    exact if_neg (Nat.not_le_of_lt (hv y x))
  have hzero : ∀ y x,
      WatermarkDetector.generate_mask h w masks minc k y x = 0 := by
    unfold WatermarkDetector.generate_mask
    exact WatermarkDetector.dilate_zero h w k
      (WatermarkDetector.dilate_zero h w k hth)
  exact ⟨hzero,
    WatermarkDetector.get_roi_coordinates_of_zero h w _ margin
      (fun y x _ _ => hzero y x)⟩

/-- C3 witness: one all-zero sample against `min_frame_count = 7`. -/
theorem C3_witness :
    (∀ y x, WatermarkDetector.vote_count [fun _ _ => 0] y x < 7) ∧
    (∀ y x, WatermarkDetector.generate_mask 1 1 [fun _ _ => 0] 7 3 y x = 0) ∧
    WatermarkDetector.get_roi_coordinates 1 1
        (WatermarkDetector.generate_mask 1 1 [fun _ _ => 0] 7 3) 50 =
      Except.error DetectError.no_watermark_region := by
  have hv : ∀ y x, WatermarkDetector.vote_count [fun _ _ => 0] y x < 7 := by
    intro y x
    simp [WatermarkDetector.vote_count]
  have := C3_no_votes_zero_mask_then_downstream_error 1 1 [fun _ _ => 0] 7 3 50 hv
  exact ⟨hv, this.1, this.2⟩

/-! ### Claims about the per-frame pipeline -/

theorem WatermarkProcessor.process_frame_ok (ctx : PCtx) (st : PState)
    (frame_bgr : Frame) (frame_index : Nat)
    (hK : st.skip_detector.keyframe_interval ≠ 0)
    (hsz : 1 ≤ st.frame_cache.cache_size)
    (hlen : st.frame_cache.entries.length ≤ st.frame_cache.cache_size)
    (hsome : st.prev_processed_roi.isSome ∨
      frame_index % st.skip_detector.keyframe_interval = 0) :
    ∃ out st', WatermarkProcessor.process_frame ctx st frame_bgr frame_index =
        Except.ok (out, st') ∧
      st'.skip_detector.keyframe_interval = st.skip_detector.keyframe_interval ∧
      st'.frame_cache.cache_size = st.frame_cache.cache_size ∧
      st'.frame_cache.entries.length ≤ st.frame_cache.cache_size ∧
      st'.prev_processed_roi.isSome := by
  obtain ⟨b, hb⟩ := FrameSkipDetector.should_isSome ctx.gray st.skip_detector
    frame_index (WatermarkProcessor.extract_roi ctx.roi_coords frame_bgr) hK
  cases b with
  | true =>
    cases hget : FrameCache.get ctx.hash st.frame_cache
        (WatermarkProcessor.extract_roi ctx.roi_coords frame_bgr) with
    | mk o c2 =>
      have hspec := FrameCache.get_snd_spec ctx.hash st.frame_cache
        (WatermarkProcessor.extract_roi ctx.roi_coords frame_bgr)
      rw [hget] at hspec
      have hlen2 : c2.entries.length = st.frame_cache.entries.length := hspec.1
      have hcs2 : c2.cache_size = st.frame_cache.cache_size := hspec.2.1
      cases o with
      | some p =>
        have hpf : WatermarkProcessor.process_frame ctx st frame_bgr frame_index =
            Except.ok (WatermarkProcessor.composite ctx frame_bgr
                (WatermarkProcessor.extract_roi ctx.roi_coords frame_bgr) p,
              ⟨c2, FrameSkipDetector.update_prev_roi st.skip_detector
                (some (WatermarkProcessor.extract_roi ctx.roi_coords frame_bgr)),
               some p⟩) := by
          simp only [WatermarkProcessor.process_frame, hb, hget]
        refine ⟨_, _, hpf, rfl, hcs2, ?_, rfl⟩
        rw [hlen2]
        exact hlen
      | none =>
        have hput : ∃ c3, FrameCache.put ctx.hash c2
            (WatermarkProcessor.extract_roi ctx.roi_coords frame_bgr)
            (ctx.inpaint (WatermarkProcessor.extract_roi ctx.roi_coords frame_bgr)) =
            some c3 := by
          apply FrameCache.put_isSome
          by_cases hfull : c2.entries.length < c2.cache_size
          · exact Or.inl hfull
          · refine Or.inr ?_
            have h1 : 1 ≤ c2.cache_size := by rw [hcs2]; exact hsz
            have h2 : c2.cache_size ≤ c2.entries.length := Nat.le_of_not_lt hfull
            exact List.length_pos.mp (by omega)
        obtain ⟨c3, hput⟩ := hput
        have hc3 := FrameCache.put_cache_size ctx.hash c2 _ _ hput
        have hlen3 : c3.entries.length ≤ c2.cache_size :=
          FrameCache.put_length_le ctx.hash c2 _ _ (by rw [hlen2, hcs2]; exact hlen) hput
        have hpf : WatermarkProcessor.process_frame ctx st frame_bgr frame_index =
            Except.ok (WatermarkProcessor.composite ctx frame_bgr
                (WatermarkProcessor.extract_roi ctx.roi_coords frame_bgr)
                (ctx.inpaint (WatermarkProcessor.extract_roi ctx.roi_coords frame_bgr)),
              ⟨c3, FrameSkipDetector.update_prev_roi st.skip_detector
                (some (WatermarkProcessor.extract_roi ctx.roi_coords frame_bgr)),
               some (ctx.inpaint
                 (WatermarkProcessor.extract_roi ctx.roi_coords frame_bgr))⟩) := by
          simp only [WatermarkProcessor.process_frame, hb, hget, hput]
        refine ⟨_, _, hpf, rfl, by rw [hc3.1]; exact hcs2, ?_, rfl⟩
        rw [← hcs2]
        exact hlen3
  | false =>
    rcases hsome with hps | hidx
    · obtain ⟨p, hp⟩ := Option.isSome_iff_exists.mp hps
      have hpf : WatermarkProcessor.process_frame ctx st frame_bgr frame_index =
          Except.ok (WatermarkProcessor.composite ctx frame_bgr
              (WatermarkProcessor.extract_roi ctx.roi_coords frame_bgr) p, st) := by
        simp only [WatermarkProcessor.process_frame, hb, hp]
      refine ⟨_, _, hpf, rfl, rfl, hlen, ?_⟩
      rw [hp]
      rfl
    · have htrue := FrameSkipDetector.should_keyframe ctx.gray st.skip_detector
        frame_index (WatermarkProcessor.extract_roi ctx.roi_coords frame_bgr) hK hidx
      rw [htrue] at hb
      simp at hb

theorem WatermarkProcessor.runFrames_ok (ctx : PCtx) :
    ∀ (frames : List Frame) (st : PState) (idx : Nat),
      st.skip_detector.keyframe_interval ≠ 0 →
      1 ≤ st.frame_cache.cache_size →
      st.frame_cache.entries.length ≤ st.frame_cache.cache_size →
      (st.prev_processed_roi.isSome ∨
        idx % st.skip_detector.keyframe_interval = 0) →
      ∃ r, WatermarkProcessor.runFrames ctx st idx frames = Except.ok r := by
  intro frames
  induction frames with
  | nil =>
    intro st idx _ _ _ _
    exact ⟨([], st), rfl⟩
  | cons f fs ih =>
    intro st idx hK hsz hlen hsome
    obtain ⟨out, st', hpf, hK', hcs', hlen', hsome'⟩ :=
      WatermarkProcessor.process_frame_ok ctx st f idx hK hsz hlen hsome
    obtain ⟨r, hr⟩ := ih st' (idx + 1) (by rw [hK']; exact hK)
      (by rw [hcs']; exact hsz) (by rw [hcs']; exact hlen') (Or.inl hsome')
    obtain ⟨outs, stFin⟩ := r
    refine ⟨(out :: outs, stFin), ?_⟩
    simp only [WatermarkProcessor.runFrames, hpf, hr]

/-- C1: processing any video from frame index 0 onward with
`WatermarkProcessor.process_frame` never reaches the "skip with no prior
snapshot" state (nor any other raising path): frame 0 is a keyframe
(0 mod 5 = 0), so the first frame is classified must-process and sets
`prev_processed_roi` before any skip can occur, and the whole run
succeeds for every frame sequence and every context. -/
theorem C1_run_from_zero_never_fails :
    ∀ (ctx : PCtx) (frames : List Frame),
      ∃ r, WatermarkProcessor.runFrames ctx WatermarkProcessor.initState 0 frames =
        Except.ok r :=
  fun ctx frames =>
    WatermarkProcessor.runFrames_ok ctx frames WatermarkProcessor.initState 0
      (by decide) (by decide) (by decide) (Or.inr (by decide))

theorem WatermarkProcessor.composite_spec (ctx : PCtx) (frame_bgr : Frame)
    (roi processed : RoiImage) (y_min y_max x_min x_max : Nat)
    (hc : ctx.roi_coords = (y_min, y_max, x_min, x_max)) :
    (∀ y x, ¬ (y_min ≤ y ∧ y < y_max ∧ x_min ≤ x ∧ x < x_max) →
      WatermarkProcessor.composite ctx frame_bgr roi processed y x = frame_bgr y x) ∧
    (∀ y x, y_min ≤ y → y < y_max → x_min ≤ x → x < x_max →
      WatermarkProcessor.composite ctx frame_bgr roi processed y x =
        WatermarkProcessor.blend_px (ctx.blend_mask (y - y_min) (x - x_min))
          (processed.px (y - y_min) (x - x_min))
          (roi.px (y - y_min) (x - x_min))) := by
  have h1 : ctx.roi_coords.1 = y_min := by rw [hc]
  have h2 : ctx.roi_coords.2.1 = y_max := by rw [hc]
  have h3 : ctx.roi_coords.2.2.1 = x_min := by rw [hc]
  have h4 : ctx.roi_coords.2.2.2 = x_max := by rw [hc]
  constructor
  · intro y x hout
    unfold WatermarkProcessor.composite
    rw [h1, h2, h3, h4, if_neg hout]
  · intro y x hy1 hy2 hx1 hx2
    unfold WatermarkProcessor.composite
    rw [h1, h2, h3, h4, if_pos ⟨hy1, hy2, hx1, hx2⟩]

theorem WatermarkProcessor.process_frame_shape (ctx : PCtx) (st : PState)
    (frame_bgr : Frame) (frame_index : Nat) (out : Frame) (st' : PState)
    (hpf : WatermarkProcessor.process_frame ctx st frame_bgr frame_index =
      Except.ok (out, st')) :
    ∃ processed, st'.prev_processed_roi = some processed ∧
      out = WatermarkProcessor.composite ctx frame_bgr
        (WatermarkProcessor.extract_roi ctx.roi_coords frame_bgr) processed := by
  cases hb : FrameSkipDetector.should_process_frame ctx.gray st.skip_detector
      frame_index (WatermarkProcessor.extract_roi ctx.roi_coords frame_bgr) with
  | none =>
    simp only [WatermarkProcessor.process_frame, hb] at hpf
    exact Except.noConfusion hpf
  | some b =>
    cases b with
    | true =>
      cases hget : FrameCache.get ctx.hash st.frame_cache
          (WatermarkProcessor.extract_roi ctx.roi_coords frame_bgr) with
      | mk o c2 =>
        cases o with
        | some p =>
          simp only [WatermarkProcessor.process_frame, hb, hget,
            Except.ok.injEq, Prod.mk.injEq] at hpf
          exact ⟨p, by rw [← hpf.2], hpf.1.symm⟩
        | none =>
          cases hput : FrameCache.put ctx.hash c2
              (WatermarkProcessor.extract_roi ctx.roi_coords frame_bgr)
              (ctx.inpaint (WatermarkProcessor.extract_roi ctx.roi_coords frame_bgr)) with
          | none =>
            simp only [WatermarkProcessor.process_frame, hb, hget, hput] at hpf
            exact Except.noConfusion hpf
          | some c3 =>
            simp only [WatermarkProcessor.process_frame, hb, hget, hput,
              Except.ok.injEq, Prod.mk.injEq] at hpf
            exact ⟨ctx.inpaint (WatermarkProcessor.extract_roi ctx.roi_coords frame_bgr),
              by rw [← hpf.2], hpf.1.symm⟩
    | false =>
      cases hp : st.prev_processed_roi with
      | none =>
        simp only [WatermarkProcessor.process_frame, hb, hp] at hpf
        exact Except.noConfusion hpf
      | some p =>
        simp only [WatermarkProcessor.process_frame, hb, hp,
          Except.ok.injEq, Prod.mk.injEq] at hpf
        refine ⟨p, ?_, hpf.1.symm⟩
        rw [← hpf.2]
        exact hp

/-- C9: a frame returned by `process_frame` agrees with the input frame
at every pixel outside the `roi_coords` rectangle, and inside the
rectangle every pixel is `blend_mask·processed + (1 − blend_mask)·raw`
per colour channel, where `processed` is the regenerated region snapshot
recorded in the resulting state and `raw` is the region extracted from
the input frame. -/
theorem C9_outside_untouched_inside_blend :
    ∀ (ctx : PCtx) (st : PState) (frame_bgr : Frame) (frame_index : Nat)
      (y_min y_max x_min x_max : Nat) (out : Frame) (st' : PState),
      ctx.roi_coords = (y_min, y_max, x_min, x_max) →
      WatermarkProcessor.process_frame ctx st frame_bgr frame_index =
        Except.ok (out, st') →
      ∃ processed, st'.prev_processed_roi = some processed ∧
        (∀ y x, ¬ (y_min ≤ y ∧ y < y_max ∧ x_min ≤ x ∧ x < x_max) →
          out y x = frame_bgr y x) ∧
        (∀ y x, y_min ≤ y → y < y_max → x_min ≤ x → x < x_max →
          out y x = WatermarkProcessor.blend_px
            (ctx.blend_mask (y - y_min) (x - x_min))
            (processed.px (y - y_min) (x - x_min))
            ((WatermarkProcessor.extract_roi ctx.roi_coords frame_bgr).px
              (y - y_min) (x - x_min))) := by
  intro ctx st frame_bgr frame_index y_min y_max x_min x_max out st' hc hpf
  obtain ⟨processed, hprev, hout⟩ :=
    WatermarkProcessor.process_frame_shape ctx st frame_bgr frame_index out st' hpf
  obtain ⟨ho, hi⟩ := WatermarkProcessor.composite_spec ctx frame_bgr
    (WatermarkProcessor.extract_roi ctx.roi_coords frame_bgr) processed
    y_min y_max x_min x_max hc
  refine ⟨processed, hprev, ?_, ?_⟩
  · intro y x hx
    rw [hout]
    exact ho y x hx
  · intro y x hy1 hy2 hx1 hx2
    rw [hout]
    exact hi y x hy1 hy2 hx1 hx2

/-- C9 witness: a concrete first frame through a fresh processor with
region rectangle rows [0, 1), columns [0, 1): pixel (5, 7) is untouched
and pixel (0, 0) is the feathered blend. -/
theorem C9_witness :
    ∃ out st', WatermarkProcessor.process_frame
        ⟨fun _ => 0, fun _ => 0, fun r => r, fun _ _ => 1/2, (0, 1, 0, 1)⟩
        WatermarkProcessor.initState (fun _ _ => (1, 2, 3)) 0 =
        Except.ok (out, st') ∧
      ∃ processed, st'.prev_processed_roi = some processed ∧
        (∀ y x, ¬ (0 ≤ y ∧ y < 1 ∧ 0 ≤ x ∧ x < 1) → out y x = ((1 : ℚ), 2, 3)) ∧
        (∀ y x, 0 ≤ y → y < 1 → 0 ≤ x → x < 1 →
          out y x = WatermarkProcessor.blend_px ((1 : ℚ)/2)
            (processed.px (y - 0) (x - 0)) ((1 : ℚ), 2, 3)) := by
  refine ⟨_, _, rfl, ?_⟩
  exact C9_outside_untouched_inside_blend
    ⟨fun _ => 0, fun _ => 0, fun r => r, fun _ _ => 1/2, (0, 1, 0, 1)⟩
    WatermarkProcessor.initState (fun _ _ => (1, 2, 3)) 0 0 1 0 1 _ _ rfl rfl
